import Mathlib

/-!
Verification development for the promptctl repository.

Each Python function under scrutiny is shallowly embedded as an executable
Lean definition over `List Char` (Python `str`), `Nat`/`Int` (Python `int`),
and `Rat` (ideal arithmetic for Python floats).  External collaborators
(the hashlib SHA-256 digest, the regular-expression engine, the YAML parser,
the hosted generation API and the JSON parser) are modelled as explicit
oracle parameters, so every theorem quantifies over their behaviour.
-/

/-- Python slice-index normalisation: a negative index counts from the end
(clamped at 0), a non-negative one is clamped at the length. -/
def pyIdx (n : Nat) (i : Int) : Nat :=
  if i < 0 then n - (-i).toNat else min i.toNat n

/-- Python slice `text[a:b]` on a list of characters. -/
def pySlice (l : List Char) (a b : Int) : List Char :=
  (l.take (pyIdx l.length b)).drop (pyIdx l.length a)

/-- Slice with natural-number endpoints: `text[a:b]` for `0 <= a`, `0 <= b`. -/
def sliceN (l : List Char) (a b : Nat) : List Char :=
  (l.take b).drop a

/-- Default chunk size from promptctl.doc.chunker (`CHUNK_CHAR_SIZE`). -/
def CHUNK_CHAR_SIZE : Nat := 400000

/-- Default overlap from promptctl.doc.chunker (`OVERLAP_CHARS`). -/
def OVERLAP_CHARS : Nat := 2000

/-- The while-loop of `chunk_text`, with explicit fuel: the Python loop has no
fuel, so a run that exhausts every fuel bound models non-termination (`none`).
The loop start index is an `Int` because `start = end - overlap` can go
negative in Python when `overlap > chunk_size`. -/
def chunkLoop (text : List Char) (size overlap : Nat) :
    Nat → Int → List (List Char) → Option (List (List Char))
  | 0, _, _ => none
  | fuel + 1, start, chunks =>
    if start < (text.length : Int) then
      let e : Int := start + size
      let chunks' := chunks ++ [pySlice text start e]
      let start' : Int := e - overlap
      if (text.length : Int) ≤ start' + overlap then some chunks'
      else chunkLoop text size overlap fuel start' chunks'
    else some chunks

/-- promptctl.doc.chunker.chunk_text: split text into overlapping chunks by
character count.  The fuel `text.length + 1` is enough for every terminating
run of the Python loop (the start index must stay below `text.length` and
grows by at least one per iteration whenever `overlap < size`). -/
def chunk_text (text : List Char) (size overlap : Nat) : Option (List (List Char)) :=
  if text.length ≤ size then some [text]
  else chunkLoop text size overlap (text.length + 1) 0 []

/-- Unfolding equation for one iteration of the chunk loop. -/
theorem chunkLoop_succ (text : List Char) (size overlap fuel : Nat) (start : Int)
    (chunks : List (List Char)) :
    chunkLoop text size overlap (fuel + 1) start chunks =
      if start < (text.length : Int) then
        let e : Int := start + size
        let chunks' := chunks ++ [pySlice text start e]
        let start' : Int := e - overlap
        if (text.length : Int) ≤ start' + overlap then some chunks'
        else chunkLoop text size overlap fuel start' chunks'
      else some chunks := rfl

example : chunk_text ("hello".toList) 10 2 = some [("hello".toList)] := by decide

example : chunk_text ("abcdef".toList) 4 2 = some [("abcd".toList), ("cdef".toList)] := by
  decide

example : chunk_text ("abcdefgh".toList) 4 2 =
    some [("abcd".toList), ("cdef".toList), ("efgh".toList)] := by decide

example : chunk_text ("ab".toList) 1 2 = none := by decide

/-- Casting lemma: a Python slice with non-negative endpoints is `sliceN`. -/
theorem pySlice_natCast (l : List Char) (a b : Nat) :
    pySlice l (a : Int) (b : Int) = sliceN l a b := by
  unfold pySlice pyIdx sliceN
  rw [if_neg (by omega : ¬((b : Int) < 0)), if_neg (by omega : ¬((a : Int) < 0)),
    Int.toNat_natCast, Int.toNat_natCast]
  have hb : l.take (min b l.length) = l.take b := by
    rcases le_or_lt b l.length with h | h
    · rw [Nat.min_eq_left h]
    · rw [Nat.min_eq_right h.le, List.take_length, List.take_of_length_le h.le]
  rw [hb]
  rcases le_or_lt a l.length with ha | ha
  · rw [Nat.min_eq_left ha]
  · rw [Nat.min_eq_right ha.le,
      List.drop_eq_nil_of_le (by rw [List.length_take]; omega),
      List.drop_eq_nil_of_le (by rw [List.length_take]; omega)]

/-- The overlap relation between consecutive chunks: the suffix of length
`overlap` of the first equals the prefix of length `overlap` of the second. -/
def ovlRel (overlap : Nat) (x y : List Char) : Prop :=
  x.drop (x.length - overlap) = y.take overlap

/-- Two consecutive windows of `chunk_text` overlap in exactly the
characters `text[s : s + overlap]`. -/
theorem sliceN_link (text : List Char) (size overlap s : Nat)
    (hov : overlap ≤ size) (hsz : size ≤ s + overlap) (hlen : s + overlap ≤ text.length) :
    ovlRel overlap (sliceN text (s + overlap - size) (s + overlap))
      (sliceN text s (s + size)) := by
  unfold ovlRel sliceN
  rw [List.length_drop, List.length_take, List.drop_drop, List.take_drop, List.take_take]
  rw [Nat.min_eq_left hlen, Nat.min_eq_left (by omega : s + overlap ≤ s + size)]
  congr 1
  omega

/-- Loop invariant for the chunk loop: the accumulated chunks form an
overlap chain, and (unless empty) the last accumulated chunk is the window
ending at `s + overlap`, which ends strictly inside the text. -/
def ChunkInv (text : List Char) (size overlap s : Nat) (acc : List (List Char)) : Prop :=
  List.Chain' (ovlRel overlap) acc ∧
    (acc = [] ∨
      (acc.getLast? = some (sliceN text (s + overlap - size) (s + overlap)) ∧
        size ≤ s + overlap ∧ s + overlap < text.length))

theorem chunkInv_append (text : List Char) (size overlap s : Nat)
    (acc : List (List Char)) (hov : overlap < size)
    (hinv : ChunkInv text size overlap s acc) :
    List.Chain' (ovlRel overlap) (acc ++ [sliceN text s (s + size)]) := by
  rcases hinv with ⟨hchain, hrest⟩
  rw [List.chain'_append]
  refine ⟨hchain, List.chain'_singleton _, ?_⟩
  intro x hx y hy
  rcases hrest with h0 | ⟨hlast, hsz, hlen⟩
  · subst h0; simp at hx
  · rw [hlast] at hx
    simp only [Option.mem_def, Option.some.injEq] at hx
    simp only [List.head?_cons, Option.mem_def, Option.some.injEq] at hy
    subst hx; subst hy
    exact sliceN_link text size overlap s hov.le hsz hlen.le

/-- If the loop returns from a state satisfying the invariant, the returned
chunk list is an overlap chain (case `overlap < size`). -/
theorem chunkLoop_chain (text : List Char) (size overlap : Nat) (hov : overlap < size) :
    ∀ fuel (s : Nat) (acc cs : List (List Char)),
      ChunkInv text size overlap s acc →
      chunkLoop text size overlap fuel (s : Int) acc = some cs →
      List.Chain' (ovlRel overlap) cs := by
  intro fuel
  induction fuel with
  | zero => intro s acc cs _ h; exact Option.noConfusion h
  | succ n ih =>
    intro s acc cs hinv h
    rw [chunkLoop_succ] at h
    by_cases hlt : (s : Int) < (text.length : Int)
    · rw [if_pos hlt] at h
      simp only at h
      have hcast : ((s : Int) + (size : Int)) = ((s + size : Nat) : Int) := by omega
      have hslice : pySlice text (s : Int) ((s : Int) + (size : Int)) =
          sliceN text s (s + size) := by
        rw [hcast, pySlice_natCast]
      by_cases hbr : (text.length : Int) ≤ (s : Int) + (size : Int) - (overlap : Int) + (overlap : Int)
      · rw [if_pos hbr] at h
        cases h
        rw [hslice]
        exact chunkInv_append text size overlap s acc hov hinv
      · rw [if_neg hbr] at h
        have harg : ((s : Int) + (size : Int) - (overlap : Int)) =
            ((s + size - overlap : Nat) : Int) := by omega
        rw [harg, hslice] at h
        refine ih (s + size - overlap) _ cs ⟨?_, Or.inr ⟨?_, by omega, by omega⟩⟩ h
        · exact chunkInv_append text size overlap s acc hov hinv
        · rw [List.getLast?_concat]
          congr 2 <;> omega
    · rw [if_neg hlt] at h
      cases h
      exact hinv.1

/-- With `overlap < size`, fuel `m + 1` suffices whenever `text.length ≤ s + m`:
the start index grows by at least one per iteration. -/
theorem chunkLoop_isSome (text : List Char) (size overlap : Nat) (hov : overlap < size) :
    ∀ m (s : Nat) (acc : List (List Char)),
      text.length ≤ s + m →
      (chunkLoop text size overlap (m + 1) (s : Int) acc).isSome := by
  intro m
  induction m with
  | zero =>
    intro s acc hle
    rw [chunkLoop_succ, if_neg (by omega : ¬((s : Int) < (text.length : Int)))]
    rfl
  | succ n ih =>
    intro s acc hle
    rw [chunkLoop_succ]
    by_cases hlt : (s : Int) < (text.length : Int)
    · rw [if_pos hlt]
      simp only
      by_cases hbr : (text.length : Int) ≤ (s : Int) + (size : Int) - (overlap : Int) + (overlap : Int)
      · rw [if_pos hbr]; rfl
      · rw [if_neg hbr]
        have harg : ((s : Int) + (size : Int) - (overlap : Int)) =
            ((s + size - overlap : Nat) : Int) := by omega
        rw [harg]
        exact ih (s + size - overlap) _ (by omega)
    · rw [if_neg hlt]; rfl

/-- With `size ≤ overlap` and text longer than one window, a loop started at a
non-positive index never returns, whatever the fuel. -/
theorem chunkLoop_none (text : List Char) (size overlap : Nat)
    (hov : size ≤ overlap) (hlen : size < text.length) :
    ∀ fuel (start : Int) (acc : List (List Char)),
      start ≤ 0 → chunkLoop text size overlap fuel start acc = none := by
  intro fuel
  induction fuel with
  | zero => intro start acc _; rfl
  | succ n ih =>
    intro start acc hst
    rw [chunkLoop_succ, if_pos (by omega : start < (text.length : Int))]
    simp only
    rw [if_neg (by omega : ¬((text.length : Int) ≤ start + (size : Int) - (overlap : Int) + (overlap : Int)))]
    exact ih _ _ (by omega)

theorem chunk_text_none (text : List Char) (size overlap : Nat)
    (hov : size ≤ overlap) (hlen : size < text.length) :
    chunk_text text size overlap = none := by
  unfold chunk_text
  rw [if_neg (by omega : ¬(text.length ≤ size))]
  exact chunkLoop_none text size overlap hov hlen _ 0 [] le_rfl

/-- Any returned chunk list is an overlap chain, with no precondition: runs
with `size ≤ overlap` either take the single-chunk branch or never return. -/
theorem chunk_text_chain (text : List Char) (size overlap : Nat)
    (cs : List (List Char)) (h : chunk_text text size overlap = some cs) :
    List.Chain' (ovlRel overlap) cs := by
  rcases le_or_lt text.length size with hle | hgt
  · unfold chunk_text at h
    rw [if_pos hle] at h
    cases h
    exact List.chain'_singleton _
  · rcases le_or_lt size overlap with hov | hov
    · rw [chunk_text_none text size overlap hov hgt] at h
      exact Option.noConfusion h
    · unfold chunk_text at h
      rw [if_neg (by omega : ¬(text.length ≤ size))] at h
      exact chunkLoop_chain text size overlap hov (text.length + 1) 0 [] cs
        ⟨List.chain'_nil, Or.inl rfl⟩ (by exact_mod_cast h)

/-- C1: for every text, chunk size, and overlap, if `len(text) <= size` then
`chunk_text` returns the single-element list holding the whole text unchanged
(the empty string gives one empty chunk); and in the split case, for every
pair of consecutive chunks in the returned list, the suffix of chunk `i` of
length `overlap` equals the prefix of chunk `i+1` of length `overlap`. -/
theorem claim_C1 (text : List Char) (size overlap : Nat) :
    (text.length ≤ size → chunk_text text size overlap = some [text]) ∧
    (∀ cs, chunk_text text size overlap = some cs →
      ∀ i (hi : i + 1 < cs.length),
        (cs.get ⟨i, by omega⟩).drop ((cs.get ⟨i, by omega⟩).length - overlap) =
          (cs.get ⟨i + 1, hi⟩).take overlap) := by
  constructor
  · intro hle
    unfold chunk_text
    rw [if_pos hle]
  · intro cs hcs i hi
    have hchain := chunk_text_chain text size overlap cs hcs
    rw [List.chain'_iff_get] at hchain
    exact hchain i (by omega)

theorem claim_C1_witness :
    chunk_text ("hi".toList) 5 2 = some [("hi".toList)] ∧
    ("abcd".toList).drop (("abcd".toList).length - 2) = ("cdef".toList).take 2 := by
  refine ⟨(claim_C1 ("hi".toList) 5 2).1 (by decide), ?_⟩
  exact (claim_C1 ("abcdef".toList) 4 2).2 [("abcd".toList), ("cdef".toList)]
    (by decide) 0 (by decide)

/-- C10: `chunk_text` terminates (the fuelled loop returns a value) whenever
`overlap < chunk_size`; when `overlap >= chunk_size` and the text is longer
than `chunk_size`, the start index never advances past zero and the loop never
returns, for any amount of fuel, so the embedding is total only under the
precondition `0 <= overlap < chunk_size`. -/
theorem claim_C10 (text : List Char) (size overlap : Nat) :
    (overlap < size → (chunk_text text size overlap).isSome = true) ∧
    (size ≤ overlap → size < text.length →
      chunk_text text size overlap = none ∧
        ∀ fuel (start : Int) (acc : List (List Char)), start ≤ 0 →
          chunkLoop text size overlap fuel start acc = none) := by
  constructor
  · intro hov
    unfold chunk_text
    by_cases hle : text.length ≤ size
    · rw [if_pos hle]; rfl
    · rw [if_neg hle]
      have h := chunkLoop_isSome text size overlap hov text.length 0 [] (by omega)
      simpa using h
  · intro hov hlen
    exact ⟨chunk_text_none text size overlap hov hlen,
      chunkLoop_none text size overlap hov hlen⟩

theorem claim_C10_witness :
    (chunk_text ("abcdef".toList) 4 2).isSome = true ∧
    chunk_text ("ab".toList) 1 2 = none := by
  exact ⟨(claim_C10 ("abcdef".toList) 4 2).1 (by decide),
    ((claim_C10 ("ab".toList) 1 2).2 (by decide) (by decide)).1⟩

/-- License tiers (promptctl.licensing.Tier). -/
inductive Tier where
  | FREE : Tier
  | PRO : Tier
deriving DecidableEq

/-- Parsed license information (promptctl.licensing.LicenseInfo); the key
defaults to the empty string. -/
structure LicenseInfo where
  tier : Tier
  key : List Char
deriving DecidableEq

/-- promptctl.licensing.LicenseInfo.is_pro. -/
def LicenseInfo.is_pro (li : LicenseInfo) : Bool :=
  li.tier == Tier.PRO

/-- The fixed key prefix `_PREFIX = "PCTL"`. -/
def pctlChars : List Char := ['P', 'C', 'T', 'L']

/-- The fixed salt-and-colon prelude of `_compute_checksum`:
`f"promptctl-v1:"` followed by the body. -/
def saltColon : List Char := "promptctl-v1:".toList

/-- The free-tier version ceiling `MAX_FREE_VERSIONS`. -/
def MAX_FREE_VERSIONS : Nat := 5

/-- The lowercase hexadecimal digits, the alphabet of
`hashlib.sha256(...).hexdigest()`. -/
def hexLowerChars : List Char := "0123456789abcdef".toList

/-- Shape of the hashlib SHA-256 hex digest, which the embedding abstracts as
an oracle `digest : List Char → List Char`: 64 lowercase hex characters. -/
def HexDigest (digest : List Char → List Char) : Prop :=
  ∀ s, (digest s).length = 64 ∧ ∀ c ∈ digest s, c ∈ hexLowerChars

/-- promptctl.licensing._compute_checksum: SHA256 hex digest of
`salt:body`, first 4 characters, uppercased.  `digest` stands for the
composition of UTF-8 encoding, SHA-256 and hex rendering from hashlib. -/
def compute_checksum (digest : List Char → List Char) (body : List Char) : List Char :=
  ((digest (saltColon ++ body)).take 4).map Char.toUpper

/-- Python `str.split("-")`: greedy split on every dash; the empty string
yields `[""]` and consecutive dashes yield empty segments. -/
def splitOnDash : List Char → List (List Char)
  | [] => [[]]
  | c :: rest =>
    if c = '-' then [] :: splitOnDash rest
    else
      match splitOnDash rest with
      | [] => [[c]]
      | h :: t => (c :: h) :: t

/-- Python `str.strip()` (whitespace from both ends). -/
def pyStrip (l : List Char) : List Char :=
  ((l.dropWhile Char.isWhitespace).reverse.dropWhile Char.isWhitespace).reverse

/-- promptctl.licensing.validate_key: format PCTL-XXXX-XXXX-XXXX, whose last
segment is the checksum of the two body segments (compared case-insensitively
via `.upper()`). -/
def validate_key (digest : List Char → List Char) (key : List Char) :
    Except String LicenseInfo :=
  if key.isEmpty then Except.error ("Empty license key")
  else
    match splitOnDash (pyStrip key) with
    | [p0, p1, p2, p3] =>
      if p0 ≠ pctlChars then
        Except.error ("Invalid key prefix: expected \x27PCTL\x27, got \x27" ++
          p0.asString ++ "\x27")
      else
        let body := p1 ++ '-' :: p2
        if p3.map Char.toUpper ≠ compute_checksum digest body then
          Except.error ("Invalid license key checksum")
        else Except.ok ⟨Tier.PRO, key⟩
    | parts =>
      Except.error ("Invalid key format: expected PCTL-XXXX-XXXX-XXXX, got " ++
        toString parts.length ++ " segments")

/-- promptctl.licensing.generate_key, default body `"TEST-KEY0"`. -/
def generate_key (digest : List Char → List Char) (body : Option (List Char)) :
    List Char :=
  let b := body.getD ("TEST-KEY0".toList)
  pctlChars ++ '-' :: (b ++ '-' :: compute_checksum digest b)

/-- promptctl.licensing.get_license: reads the key from the environment
variable (modelled as `env`; `none` or the empty string count as absent) and
swallows validation errors into the FREE tier. -/
def get_license (digest : List Char → List Char) (env : Option (List Char)) :
    LicenseInfo :=
  let key := env.getD []
  if key.isEmpty then ⟨Tier.FREE, []⟩
  else
    match validate_key digest key with
    | Except.ok info => info
    | Except.error _ => ⟨Tier.FREE, []⟩

/-- A constant digest oracle of the right shape, used to instantiate the
licensing theorems on concrete inputs. -/
def digest0 : List Char → List Char := fun _ => List.replicate 64 '0'

theorem digest0_hex : HexDigest digest0 := by
  intro s
  refine ⟨List.length_replicate 64 '0', ?_⟩
  intro c hc
  rw [List.eq_of_mem_replicate hc]
  decide

example : generate_key digest0 (some ("AB".toList)) = "PCTL-AB-0000".toList := by decide

example : (validate_key digest0 ("PCTL-AB-0000".toList)).isOk = false := by decide

example : validate_key digest0 (generate_key digest0 none) =
    Except.ok ⟨Tier.PRO, "PCTL-TEST-KEY0-0000".toList⟩ := rfl

theorem splitOnDash_no_dash (l : List Char) (h : ∀ c ∈ l, c ≠ '-') :
    splitOnDash l = [l] := by
  induction l with
  | nil => rfl
  | cons c rest ih =>
    unfold splitOnDash
    rw [if_neg (h c (by simp))]
    rw [ih (fun d hd => h d (by simp [hd]))]

theorem splitOnDash_append (xs ys : List Char) (h : ∀ c ∈ xs, c ≠ '-') :
    splitOnDash (xs ++ '-' :: ys) = xs :: splitOnDash ys := by
  induction xs with
  | nil =>
    show splitOnDash ('-' :: ys) = [] :: splitOnDash ys
    rw [splitOnDash]
    rw [if_pos rfl]
  | cons c rest ih =>
    show splitOnDash (c :: (rest ++ '-' :: ys)) = (c :: rest) :: splitOnDash ys
    rw [splitOnDash]
    rw [if_neg (h c (by simp))]
    rw [ih (fun d hd => h d (by simp [hd]))]

theorem count_dash_split (l : List Char) (h : l.count '-' = 1) :
    ∃ b1 b2, l = b1 ++ '-' :: b2 ∧ (∀ c ∈ b1, c ≠ '-') ∧ ∀ c ∈ b2, c ≠ '-' := by
  induction l with
  | nil => simp at h
  | cons c rest ih =>
    by_cases hc : c = '-'
    · subst hc
      rw [List.count_cons_self] at h
      have hz : rest.count '-' = 0 := by omega
      rw [List.count_eq_zero] at hz
      exact ⟨[], rest, rfl, by simp, fun d hd he => hz (he ▸ hd)⟩
    · rw [List.count_cons_of_ne (Ne.symm hc)] at h
      obtain ⟨b1, b2, hl, h1, h2⟩ := ih (by omega)
      refine ⟨c :: b1, b2, by rw [hl]; rfl, ?_, h2⟩
      intro d hd
      rcases List.mem_cons.mp hd with rfl | hd'
      · exact hc
      · exact h1 d hd'

theorem hex_all :
    hexLowerChars.all (fun c =>
      (Char.toUpper (Char.toUpper c) == Char.toUpper c) &&
        (Char.toUpper c != '-') && !(Char.toUpper c).isWhitespace) = true := by
  decide

/-- For a lowercase hex digit, `.upper()` is idempotent and its result is
neither a dash nor whitespace. -/
theorem hex_facts (c : Char) (h : c ∈ hexLowerChars) :
    Char.toUpper (Char.toUpper c) = Char.toUpper c ∧
      Char.toUpper c ≠ '-' ∧ ¬(Char.toUpper c).isWhitespace = true := by
  have hb := List.all_eq_true.mp hex_all c h
  simp only [Bool.and_eq_true, beq_iff_eq, bne_iff_ne, Bool.not_eq_true',
    Bool.not_eq_true] at hb
  exact ⟨hb.1.1, hb.1.2, by simp [hb.2]⟩

/-- Facts about a generated checksum under a digest of the SHA-256 hex shape:
four characters, none of them a dash or whitespace, fixed by `.upper()`. -/
theorem compute_checksum_spec (digest : List Char → List Char)
    (hhex : HexDigest digest) (body : List Char) :
    (compute_checksum digest body).length = 4 ∧
      (∀ c ∈ compute_checksum digest body, c ≠ '-' ∧ ¬c.isWhitespace) ∧
      (compute_checksum digest body).map Char.toUpper =
        compute_checksum digest body := by
  obtain ⟨hlen, hmem⟩ := hhex (saltColon ++ body)
  unfold compute_checksum
  refine ⟨?_, ?_, ?_⟩
  · rw [List.length_map, List.length_take, hlen]
    rfl
  · intro c hc
    obtain ⟨d, hd, rfl⟩ := List.mem_map.mp hc
    have hdh : d ∈ hexLowerChars := hmem d (List.take_subset 4 _ hd)
    exact ⟨(hex_facts d hdh).2.1, (hex_facts d hdh).2.2⟩
  · rw [List.map_map]
    refine List.map_congr_left ?_
    intro d hd
    exact (hex_facts d (hmem d (List.take_subset 4 _ hd))).1

theorem pyStrip_eq_self (l : List Char)
    (h1 : ∀ c, l.head? = some c → ¬c.isWhitespace)
    (h2 : ∀ c, l.getLast? = some c → ¬c.isWhitespace) :
    pyStrip l = l := by
  unfold pyStrip
  cases l with
  | nil => rfl
  | cons c t =>
    rw [List.dropWhile_cons, if_neg (by simpa using h1 c rfl)]
    cases hl : (c :: t).reverse with
    | nil => exact absurd hl (by simp)
    | cons d r =>
      have hd : (c :: t).getLast? = some d := by
        rw [← List.head?_reverse, hl, List.head?_cons]
      rw [List.dropWhile_cons, if_neg (by simpa using h2 d hd),
        List.reverse_eq_iff]
      exact hl.symm

theorem mem_of_getLast?_eq (l : List Char) (c : Char) (h : l.getLast? = some c) :
    c ∈ l := by
  have hmem : c ∈ l.getLast? := by rw [h]; rfl
  obtain ⟨hne, rfl⟩ := List.mem_getLast?_eq_getLast hmem
  exact List.getLast_mem hne

/-- Reduction of `validate_key` when the stripped key splits into exactly four
segments. -/
theorem validate_key_cons4 (digest : List Char → List Char)
    (key p0 p1 p2 p3 : List Char) (hne : key.isEmpty = false)
    (hs : splitOnDash (pyStrip key) = [p0, p1, p2, p3]) :
    validate_key digest key =
      (if p0 ≠ pctlChars then
        Except.error ("Invalid key prefix: expected \x27PCTL\x27, got \x27" ++
          p0.asString ++ "\x27")
      else if p3.map Char.toUpper ≠ compute_checksum digest (p1 ++ '-' :: p2) then
        Except.error ("Invalid license key checksum")
      else Except.ok ⟨Tier.PRO, key⟩) := by
  unfold validate_key
  rw [if_neg (by simp [hne]), hs]

/-- Round trip through the checksum: a generated key validates as PRO whenever
the body has exactly one dash (so the key has exactly four segments). -/
theorem validate_generate (digest : List Char → List Char) (hhex : HexDigest digest)
    (body : List Char) (hb : body.count '-' = 1) :
    validate_key digest (generate_key digest (some body)) =
      Except.ok ⟨Tier.PRO, generate_key digest (some body)⟩ := by
  obtain ⟨b1, b2, hbody, h1, h2⟩ := count_dash_split body hb
  obtain ⟨hcklen, hckchars, hckfix⟩ := compute_checksum_spec digest hhex body
  have hcknil : compute_checksum digest body ≠ [] := by
    intro h0
    rw [h0] at hcklen
    exact absurd hcklen (by decide)
  have hkeyform : generate_key digest (some body) =
      pctlChars ++ '-' :: (body ++ '-' :: compute_checksum digest body) := rfl
  have hne : (generate_key digest (some body)).isEmpty = false := by
    rw [hkeyform]
    rfl
  have hkeyform3 : generate_key digest (some body) =
      (pctlChars ++ '-' :: body ++ ['-']) ++ compute_checksum digest body := by
    rw [hkeyform]
    simp
  have hstrip : pyStrip (generate_key digest (some body)) =
      generate_key digest (some body) := by
    apply pyStrip_eq_self
    · intro c0 hc0
      rw [hkeyform] at hc0
      have h' : (some 'P' : Option Char) = some c0 := hc0
      obtain rfl : c0 = 'P' := (Option.some.inj h').symm
      decide
    · intro c0 hc0
      rw [hkeyform3, List.getLast?_append] at hc0
      obtain ⟨d, hd⟩ := Option.isSome_iff_exists.mp (List.getLast?_isSome.mpr hcknil)
      rw [hd] at hc0
      obtain rfl : d = c0 := Option.some.inj hc0
      exact (hckchars d (mem_of_getLast?_eq _ d hd)).2
  have hsplit : splitOnDash (generate_key digest (some body)) =
      [pctlChars, b1, b2, compute_checksum digest body] := by
    have e0 : generate_key digest (some body) =
        pctlChars ++ '-' :: (b1 ++ '-' :: (b2 ++ '-' :: compute_checksum digest body)) := by
      rw [hkeyform]
      have e1 : body ++ '-' :: compute_checksum digest body =
          b1 ++ '-' :: (b2 ++ '-' :: compute_checksum digest body) := by
        conv_lhs => rw [hbody]
        simp
        rw [hbody]
      rw [e1]
    rw [e0, splitOnDash_append pctlChars _ (by decide),
      splitOnDash_append b1 _ h1, splitOnDash_append b2 _ h2,
      splitOnDash_no_dash _ (fun c hc => (hckchars c hc).1)]
  rw [validate_key_cons4 digest _ pctlChars b1 b2 (compute_checksum digest body) hne
    (by rw [hstrip]; exact hsplit)]
  rw [if_neg (by simp)]
  rw [← hbody]
  rw [if_neg (by simp [hckfix])]

/-- Every successful validation reports the PRO tier: the only `return` in
`validate_key` constructs `LicenseInfo(tier=Tier.PRO, key=key)`. -/
theorem validate_key_ok_tier (digest : List Char → List Char) (key : List Char)
    (info : LicenseInfo) (h : validate_key digest key = Except.ok info) :
    info.tier = Tier.PRO := by
  unfold validate_key at h
  split at h
  · exact Except.noConfusion h
  · split at h
    · simp only [] at h
      split_ifs at h
      all_goals first
        | exact Except.noConfusion h
        | (injection h with h'; rw [← h'])
    · exact Except.noConfusion h

/-- C2 counterexample: under a digest oracle of the SHA-256 hex shape, the
round trip fails for the body `"AB"` (no dash): the generated key
`PCTL-AB-0000` has only three segments, so `validate_key` rejects it. -/
theorem claim_C2_counterexample :
    HexDigest digest0 ∧
      (validate_key digest0 (generate_key digest0 (some ("AB".toList)))).isOk = false :=
  ⟨digest0_hex, by decide⟩

/-- C2 (amended): for every digest of the SHA-256 hex-digest shape and every
body containing exactly one dash — the default body `"TEST-KEY0"` included —
`validate_key (generate_key body)` succeeds and returns a PRO-tier
LicenseInfo.  (For bodies with any other dash count the generated key does not
split into four segments and is rejected.) -/
theorem claim_C2 (digest : List Char → List Char) (body : List Char)
    (hhex : HexDigest digest) (hb : body.count '-' = 1) :
    validate_key digest (generate_key digest (some body)) =
        Except.ok ⟨Tier.PRO, generate_key digest (some body)⟩ ∧
      validate_key digest (generate_key digest none) =
        Except.ok ⟨Tier.PRO, generate_key digest none⟩ := by
  refine ⟨validate_generate digest hhex body hb, ?_⟩
  have hdef : generate_key digest none = generate_key digest (some ("TEST-KEY0".toList)) :=
    rfl
  rw [hdef]
  exact validate_generate digest hhex ("TEST-KEY0".toList) (by decide)

theorem claim_C2_witness :
    (validate_key digest0 (generate_key digest0 (some ("AAAA-BBBB".toList)))).isOk = true ∧
      (validate_key digest0 (generate_key digest0 none)).isOk = true := by
  obtain ⟨h1, h2⟩ := claim_C2 digest0 ("AAAA-BBBB".toList) digest0_hex (by decide)
  rw [h1, h2]
  exact ⟨rfl, rfl⟩

/-- C7: `get_license` never raises (it is a total function in the embedding):
it returns the FREE tier when the environment variable is absent or empty or
when `validate_key` fails (the error is swallowed), and returns the validated
PRO license when validation succeeds. -/
theorem claim_C7 (digest : List Char → List Char) (env : Option (List Char)) :
    ((env = none ∨ env = some []) → get_license digest env = ⟨Tier.FREE, []⟩) ∧
      (∀ key msg, env = some key → validate_key digest key = Except.error msg →
        get_license digest env = ⟨Tier.FREE, []⟩) ∧
      (∀ key info, env = some key → validate_key digest key = Except.ok info →
        get_license digest env = info ∧ info.tier = Tier.PRO) := by
  refine ⟨?_, ?_, ?_⟩
  · rintro (rfl | rfl) <;> rfl
  · rintro key msg rfl hval
    simp only [get_license, Option.getD]
    by_cases hk : key.isEmpty = true
    · rw [if_pos hk]
    · rw [if_neg hk, hval]
  · rintro key info rfl hval
    have hk : key.isEmpty = false := by
      cases hkey : key.isEmpty
      · rfl
      · rw [List.isEmpty_iff] at hkey
        subst hkey
        rw [show validate_key digest [] = Except.error ("Empty license key") from rfl] at hval
        exact Except.noConfusion hval
    refine ⟨?_, validate_key_ok_tier digest key info hval⟩
    simp only [get_license, Option.getD]
    rw [if_neg (by simp [hk]), hval]

theorem claim_C7_witness :
    get_license digest0 none = ⟨Tier.FREE, []⟩ ∧
      get_license digest0 (some ("PCTL-XXXX-YYYY-ZZZZ".toList)) = ⟨Tier.FREE, []⟩ := by
  refine ⟨(claim_C7 digest0 none).1 (Or.inl rfl), ?_⟩
  exact (claim_C7 digest0 (some ("PCTL-XXXX-YYYY-ZZZZ".toList))).2.1
    ("PCTL-XXXX-YYYY-ZZZZ".toList) ("Invalid license key checksum") rfl rfl

/-- Abstract filesystem state for promptctl.prompt.versioner.save_version:
whether the source template file exists, the version numbers found by
`_get_version_numbers` in the per-prompt directory (`v<N>.yaml` files), and
whether the prompt directory has been created (`mkdir`). -/
structure FsState where
  srcExists : Bool
  versions : List Nat
  dirCreated : Bool
deriving DecidableEq

/-- Python `max(existing, default=0)`. -/
def maxDefault0 (l : List Nat) : Nat := l.foldr max 0

/-- The free-tier denial message of `save_version`, with
`MAX_FREE_VERSIONS = 5` interpolated. -/
def freeTierMsg : String :=
  "Free tier limited to " ++ toString MAX_FREE_VERSIONS ++
    " versions per prompt. Upgrade to Pro for unlimited versions."

/-- promptctl.prompt.versioner.save_version over the abstract filesystem
state: missing source fails; the prompt directory is created; the next
version is `max(existing, default=0) + 1`; a non-PRO license with
`next > MAX_FREE_VERSIONS` fails before any snapshot is written; otherwise
the snapshot `v<next>.yaml` is recorded and `(next, dest)` is returned (the
destination path is represented by its version number). -/
def save_version (digest : List Char → List Char) (env : Option (List Char))
    (template_path : String) (fs : FsState) : Except String (Nat × Nat) × FsState :=
  if fs.srcExists = false then
    (Except.error ("Template file not found: " ++ template_path), fs)
  else
    let fs1 : FsState := ⟨fs.srcExists, fs.versions, true⟩
    let next := maxDefault0 fs1.versions + 1
    let license_info := get_license digest env
    if license_info.is_pro = false ∧ MAX_FREE_VERSIONS < next then
      (Except.error freeTierMsg, fs1)
    else
      (Except.ok (next, next), ⟨fs1.srcExists, fs1.versions ++ [next], fs1.dirCreated⟩)

/-- C3: whenever the next version number exceeds the free-tier ceiling of 5
and the current tier is not PRO, `save_version` fails with the fixed error
message (which names the limit and the upgrade path), and the denied save
leaves the stored version list unchanged — no snapshot is written. -/
theorem claim_C3 (digest : List Char → List Char) (env : Option (List Char))
    (template_path : String) (fs : FsState)
    (hsrc : fs.srcExists = true)
    (hfree : (get_license digest env).is_pro = false)
    (hnext : MAX_FREE_VERSIONS < maxDefault0 fs.versions + 1) :
    (save_version digest env template_path fs).1 = Except.error freeTierMsg ∧
      ((save_version digest env template_path fs).2).versions = fs.versions ∧
      List.IsInfix (("limited to 5 versions").toList) (freeTierMsg.toList) ∧
      List.IsInfix (("Upgrade to Pro").toList) (freeTierMsg.toList) := by
  unfold save_version
  rw [hsrc]
  rw [if_neg (by simp)]
  simp only []
  rw [if_pos ⟨hfree, hnext⟩]
  exact ⟨rfl, rfl, by decide, by decide⟩

theorem claim_C3_witness :
    (save_version digest0 none ("t.yaml") ⟨true, [5], false⟩).1 =
        Except.error freeTierMsg ∧
      ((save_version digest0 none ("t.yaml") ⟨true, [5], false⟩).2).versions = [5] := by
  obtain ⟨ha, hb, _, _⟩ :=
    claim_C3 digest0 none ("t.yaml") ⟨true, [5], false⟩ rfl (by decide) (by decide)
  exact ⟨ha, hb⟩

/-- promptctl.models.ClaudeModel.OPUS. -/
def OPUS : String := "claude-opus-4-20250514"

/-- promptctl.models.ClaudeModel.SONNET. -/
def SONNET : String := "claude-sonnet-4-20250514"

/-- promptctl.models.ClaudeModel.HAIKU. -/
def HAIKU : String := "claude-haiku-4-5-20251001"

/-- promptctl.models.MODEL_COSTS: cost per million tokens in USD.  The float
literals 15.0, 75.0, 3.0, 15.0, 0.80 and 4.0 are represented as the exact
rationals they denote in the source text. -/
def MODEL_COSTS : List (String × ℚ × ℚ) :=
  [(OPUS, (15, 75)), (SONNET, (3, 15)), (HAIKU, (4 / 5, 4))]

/-- Python `MODEL_COSTS.get(model)`: the dict keys are pairwise distinct, so
lookup by first match over the entry list is faithful. -/
def lookupCost (model : String) : Option (ℚ × ℚ) :=
  (MODEL_COSTS.find? (fun p => p.1 == model)).map (fun p => p.2)

/-- promptctl.models.calculate_cost. -/
def calculate_cost (model : String) (input_tokens output_tokens : Nat) : ℚ :=
  match lookupCost model with
  | none => 0
  | some (input_rate, output_rate) =>
    (input_tokens * input_rate + output_tokens * output_rate) / 1000000

/-- C9: unknown model identifiers cost exactly zero (no error); every known
model with rates `(input_rate, output_rate)` costs
`(input_tokens*input_rate + output_tokens*output_rate) / 1_000_000`, which is
zero at `(0, 0)` tokens for every model. -/
theorem claim_C9 (model : String) (input_tokens output_tokens : Nat) :
    ((∀ rates, (model, rates) ∉ MODEL_COSTS) →
        calculate_cost model input_tokens output_tokens = 0) ∧
      (∀ input_rate output_rate, (model, (input_rate, output_rate)) ∈ MODEL_COSTS →
        calculate_cost model input_tokens output_tokens =
          (input_tokens * input_rate + output_tokens * output_rate) / 1000000) ∧
      calculate_cost model 0 0 = 0 := by
  refine ⟨?_, ?_, ?_⟩
  · intro hout
    have hnone : lookupCost model = none := by
      unfold lookupCost
      rw [List.find?_eq_none.mpr]
      · rfl
      · intro x hx hpx
        have hx1 : x.1 = model := by simpa using hpx
        exact hout x.2 (by rw [← hx1]; simpa using hx)
    unfold calculate_cost
    rw [hnone]
  · intro input_rate output_rate hmem
    simp only [ MODEL_COSTS, List.mem_cons, List.not_mem_nil, or_false,
      Prod.mk.injEq] at hmem
    rcases hmem with ⟨rfl, rfl, rfl⟩ | ⟨rfl, rfl, rfl⟩ | ⟨rfl, rfl, rfl⟩ <;> rfl
  · cases hl : lookupCost model with
    | none => simp [calculate_cost, hl]
    | some rates =>
      obtain ⟨ri, ro⟩ := rates
      simp [calculate_cost, hl]

theorem claim_C9_witness :
    calculate_cost ("gpt-4") 100 200 = 0 ∧
      calculate_cost OPUS 100 200 = ((100 : Nat) * 15 + (200 : Nat) * 75 : ℚ) / 1000000 ∧
      calculate_cost SONNET 0 0 = 0 := by
  refine ⟨?_, ?_, ?_⟩
  · refine (claim_C9 ("gpt-4") 100 200).1 ?_
    intro rates hmem
    simp only [ MODEL_COSTS, OPUS, SONNET, HAIKU, List.mem_cons, List.not_mem_nil,
      or_false, Prod.mk.injEq] at hmem
    rcases hmem with ⟨h, _⟩ | ⟨h, _⟩ | ⟨h, _⟩ <;> exact absurd h (by decide)
  · exact (claim_C9 OPUS 100 200).2.1 15 75 (by decide)
  · exact (claim_C9 SONNET 0 0).2.2

/-- promptctl.models.LintSeverity. -/
inductive LintSeverity where
  | ERROR : LintSeverity
  | WARNING : LintSeverity
  | INFO : LintSeverity
deriving DecidableEq

/-- promptctl.models.LintCategory. -/
inductive LintCategory where
  | STRUCTURE : LintCategory
  | SYNTAX : LintCategory
  | SECURITY : LintCategory
  | STYLE : LintCategory
  | COMPLEXITY : LintCategory
deriving DecidableEq

/-- promptctl.models.LintRule. -/
structure LintRule where
  id : String
  name : String
  description : String
  severity : LintSeverity
  category : LintCategory
deriving DecidableEq

/-- promptctl.models.LintViolation (defaults: line 0, column 0, empty
suggestion, WARNING severity). -/
structure LintViolation where
  rule_id : String
  file : String
  line : Nat
  column : Nat
  message : String
  suggestion : String
  severity : LintSeverity
deriving DecidableEq

/-- promptctl.models.LintReport. -/
structure LintReport where
  violations : List LintViolation
  summary : String
  file_path : String
deriving DecidableEq

/-- promptctl.lint.rules.RULES: the eight built-in rules. -/
def RULES : List LintRule :=
  [⟨"L001", "invalid-yaml-syntax", "File is not valid YAML.",
    LintSeverity.ERROR, LintCategory.SYNTAX⟩,
   ⟨"L002", "missing-name-field", "Prompt template should have a \x27name\x27 field.",
    LintSeverity.ERROR, LintCategory.STRUCTURE⟩,
   ⟨"L003", "missing-version-field", "Prompt template should have a \x27version\x27 field.",
    LintSeverity.WARNING, LintCategory.STRUCTURE⟩,
   ⟨"L004", "duplicate-keys", "YAML contains duplicate mapping keys.",
    LintSeverity.ERROR, LintCategory.SYNTAX⟩,
   ⟨"L005", "unused-variables", "Template variables defined but not used in prompt text.",
    LintSeverity.WARNING, LintCategory.STYLE⟩,
   ⟨"L006", "hardcoded-secrets", "Potential secrets or API keys found in template.",
    LintSeverity.ERROR, LintCategory.SECURITY⟩,
   ⟨"L007", "naming-convention",
    "Template name should be lowercase with hyphens or underscores.",
    LintSeverity.INFO, LintCategory.STYLE⟩,
   ⟨"L008", "deep-nesting", "YAML nesting exceeds recommended depth.",
    LintSeverity.WARNING, LintCategory.COMPLEXITY⟩]

/-- promptctl.lint.rules.get_rule: lookup by id (ids are pairwise distinct, so
first match is faithful to the dict built by `_RULES_BY_ID`). -/
def get_rule (rule_id : String) : Option LintRule :=
  RULES.find? (fun r => r.id == rule_id)

/-- The `rule.severity if rule else fallback` idiom used throughout
promptctl.lint.checker. -/
def sevOf (rule : Option LintRule) (fallback : LintSeverity) : LintSeverity :=
  match rule with
  | some r => r.severity
  | none => fallback

example : sevOf (get_rule ("L006")) LintSeverity.ERROR = LintSeverity.ERROR := by decide

example : sevOf (get_rule ("L007")) LintSeverity.INFO = LintSeverity.INFO := by decide

/-- The line-break characters of Python `str.splitlines`. -/
def isLineBreak (c : Char) : Bool :=
  c = '\n' || c = '\r' || c = '\x0b' || c = '\x0c' ||
    c = '\x1c' || c = '\x1d' || c = '\x1e' || c = '\x85' ||
    c = '\u2028' || c = '\u2029'

/-- Worker for Python `str.splitlines`: `acc` holds the current line in
reverse; `\r\n` counts as a single break; no trailing empty line is produced
for a trailing break. -/
def splitLinesGo : List Char → List Char → List (List Char)
  | acc, [] => [acc.reverse]
  | acc, '\r' :: '\n' :: rest =>
    acc.reverse :: (match rest with
      | [] => []
      | r => splitLinesGo [] r)
  | acc, c :: rest =>
    if isLineBreak c then
      acc.reverse :: (match rest with
        | [] => []
        | r => splitLinesGo [] r)
    else splitLinesGo (c :: acc) rest

/-- Python `str.splitlines` (the empty string yields no lines). -/
def pySplitlines (l : List Char) : List (List Char) :=
  match l with
  | [] => []
  | l => splitLinesGo [] l

example : pySplitlines ("ab\ncd".toList) = [("ab".toList), ("cd".toList)] := by decide

example : pySplitlines ("ab\r\ncd\n".toList) = [("ab".toList), ("cd".toList)] := by decide

example : pySplitlines ("\n\n".toList) = [[], []] := by decide

/-- The violation emitted by `_check_hardcoded_secrets` for line `i`. -/
def secretViolation (path : String) (i : Nat) : LintViolation :=
  ⟨"L006", path, i, 0, "Potential hardcoded secret detected.",
    "Use environment variables instead.", sevOf (get_rule ("L006")) LintSeverity.ERROR⟩

/-- The `for i, line in enumerate(content.splitlines(), 1)` loop of
`_check_hardcoded_secrets`: the inner loop over SECRET_PATTERNS breaks after
the first match, so a line yields one violation exactly when some pattern
matches it. -/
def secretsLoop (patterns : List (List Char → Bool)) (path : String) :
    Nat → List (List Char) → List LintViolation
  | _, [] => []
  | i, line :: rest =>
    (if patterns.any (fun p => p line) then [secretViolation path i] else []) ++
      secretsLoop patterns path (i + 1) rest

/-- promptctl.lint.checker._check_hardcoded_secrets; the regular-expression
engine is abstracted as the list `patterns` of per-line matchers standing for
`pattern.search(line)` over SECRET_PATTERNS. -/
def check_hardcoded_secrets (patterns : List (List Char → Bool))
    (content : List Char) (path : String) : List LintViolation :=
  secretsLoop patterns path 1 (pySplitlines content)

theorem mem_secretsLoop (patterns : List (List Char → Bool)) (path : String) :
    ∀ (lines : List (List Char)) (i : Nat) (v : LintViolation),
      v ∈ secretsLoop patterns path i lines ↔
        ∃ j, ∃ hj : j < lines.length,
          patterns.any (fun p => p (lines.get ⟨j, hj⟩)) = true ∧
            v = secretViolation path (i + j) := by
  intro lines
  induction lines with
  | nil =>
    intro i v
    constructor
    · intro hv
      exact absurd hv (by simp [secretsLoop])
    · rintro ⟨j, hj, _⟩
      exact absurd hj (by simp)
  | cons line rest ih =>
    intro i v
    rw [secretsLoop, List.mem_append]
    constructor
    · rintro (h1 | h2)
      · by_cases hp : patterns.any (fun p => p line) = true
        · rw [if_pos hp] at h1
          rw [List.mem_singleton] at h1
          exact ⟨0, by simp, by simpa using hp, by simpa using h1⟩
        · rw [if_neg hp] at h1
          exact absurd h1 (by simp)
      · obtain ⟨j, hj, hm, hv⟩ := (ih (i + 1) v).mp h2
        refine ⟨j + 1, by simpa using hj, hm, ?_⟩
        rw [hv]
        congr 1
        omega
    · rintro ⟨j, hj, hm, rfl⟩
      cases j with
      | zero =>
        left
        rw [if_pos (by simpa using hm)]
        simp
      | succ m =>
        right
        refine (ih (i + 1) _).mpr ⟨m, by simpa using hj, hm, ?_⟩
        congr 1
        omega

theorem mem_check_secrets (patterns : List (List Char → Bool)) (content : List Char)
    (path : String) (v : LintViolation) :
    v ∈ check_hardcoded_secrets patterns content path ↔
      ∃ j, ∃ hj : j < (pySplitlines content).length,
        patterns.any (fun p => p ((pySplitlines content).get ⟨j, hj⟩)) = true ∧
          v = secretViolation path (j + 1) := by
  unfold check_hardcoded_secrets
  rw [mem_secretsLoop]
  constructor
  · rintro ⟨j, hj, hm, rfl⟩
    exact ⟨j, hj, hm, by congr 1; omega⟩
  · rintro ⟨j, hj, hm, rfl⟩
    exact ⟨j, hj, hm, by congr 1; omega⟩

theorem secretsLoop_countP_le (patterns : List (List Char → Bool)) (path : String) :
    ∀ (lines : List (List Char)) (i n : Nat),
      (secretsLoop patterns path i lines).countP (fun v => v.line == n) ≤ 1 := by
  intro lines
  induction lines with
  | nil => intro i n; simp [secretsLoop]
  | cons line rest ih =>
    intro i n
    rw [secretsLoop, List.countP_append]
    by_cases hn : n = i
    · have hz : (secretsLoop patterns path (i + 1) rest).countP
          (fun v => v.line == n) = 0 := by
        rw [List.countP_eq_zero]
        intro v hv
        obtain ⟨j, hj, _, rfl⟩ := (mem_secretsLoop patterns path rest (i + 1) v).mp hv
        simp [secretViolation]
        omega
      rw [hz, Nat.add_zero]
      refine le_trans (List.countP_le_length _) ?_
      by_cases hp : patterns.any (fun p => p line) = true
      · rw [if_pos hp]
        simp
      · rw [if_neg hp]
        simp
    · have hz : (if patterns.any (fun p => p line) then [secretViolation path i]
          else []).countP (fun v => v.line == n) = 0 := by
        by_cases hp : patterns.any (fun p => p line) = true
        · rw [if_pos hp]
          simp [secretViolation]
          omega
        · rw [if_neg hp]
          rfl
      rw [hz]
      simpa using ih (i + 1) n

/-- C8: the hardcoded-secrets check scans line-by-line with 1-based line
numbers; a line produces a violation exactly when some secret pattern matches
it; at most one violation is emitted per line even when several patterns
match; and every violation carries rule L006, ERROR severity, the fixed
message and the fixed remediation suggestion.  The statement quantifies over
the matcher list standing for the fixed SECRET_PATTERNS regular expressions
(the regex engine is external to the repository). -/
theorem claim_C8 (patterns : List (List Char → Bool)) (content : List Char)
    (path : String) :
    (∀ v ∈ check_hardcoded_secrets patterns content path,
      v.rule_id = "L006" ∧ v.severity = LintSeverity.ERROR ∧
        v.suggestion = "Use environment variables instead." ∧
        v.message = "Potential hardcoded secret detected." ∧
        1 ≤ v.line ∧
        ∃ hj : v.line - 1 < (pySplitlines content).length,
          patterns.any (fun p => p ((pySplitlines content).get ⟨v.line - 1, hj⟩)) = true) ∧
      (∀ j (hj : j < (pySplitlines content).length),
        patterns.any (fun p => p ((pySplitlines content).get ⟨j, hj⟩)) = true →
          ∃ v ∈ check_hardcoded_secrets patterns content path, v.line = j + 1) ∧
      ∀ n, ((check_hardcoded_secrets patterns content path).filter
          (fun v => v.line == n)).length ≤ 1 := by
  refine ⟨?_, ?_, ?_⟩
  · intro v hv
    obtain ⟨j, hj, hm, rfl⟩ := (mem_check_secrets patterns content path v).mp hv
    exact ⟨rfl, rfl, rfl, rfl, Nat.le_add_left 1 j, hj, hm⟩
  · intro j hj hm
    exact ⟨secretViolation path (j + 1),
      (mem_check_secrets patterns content path _).mpr ⟨j, hj, hm, rfl⟩, rfl⟩
  · intro n
    rw [← List.countP_eq_length_filter]
    exact secretsLoop_countP_le patterns path (pySplitlines content) 1 n

theorem claim_C8_witness :
    ((check_hardcoded_secrets [fun l => ('k' ∈ l : Bool), fun l => ('s' ∈ l : Bool)]
        ("sk\nok".toList) ("f.yaml")).filter (fun v => v.line == 1)).length ≤ 1 ∧
      (check_hardcoded_secrets [fun l => ('k' ∈ l : Bool), fun l => ('s' ∈ l : Bool)]
        ("sk\nok".toList) ("f.yaml")).any (fun v => v.line == 1) = true := by
  constructor
  · exact (claim_C8 [fun l => ('k' ∈ l : Bool), fun l => ('s' ∈ l : Bool)]
      ("sk\nok".toList) ("f.yaml")).2.2 1
  · obtain ⟨v, hv, hline⟩ := (claim_C8 [fun l => ('k' ∈ l : Bool), fun l => ('s' ∈ l : Bool)]
      ("sk\nok".toList) ("f.yaml")).2.1 0 (by decide) (by decide)
    rw [List.any_eq_true]
    exact ⟨v, hv, by simp [hline]⟩

/-- Parsed YAML values as produced by yaml.SafeLoader: None, booleans,
numbers, strings, sequences, and mappings (whose keys may be any value).
Mapping entries model the final Python dict: insertion-ordered with unique
keys (PyYAML keeps the last value for a duplicated key and our loader records
the duplication separately). -/
inductive Yaml where
  | nullV : Yaml
  | boolV : Bool → Yaml
  | intV : Int → Yaml
  | strV : String → Yaml
  | arr : List Yaml → Yaml
  | map : List (Yaml × Yaml) → Yaml

mutual

/-- Structural equality of parsed YAML values: Python `==` on the objects
built by the SafeLoader. -/
def yamlBeq : Yaml → Yaml → Bool
  | Yaml.nullV, Yaml.nullV => true
  | Yaml.boolV a, Yaml.boolV b => a == b
  | Yaml.intV a, Yaml.intV b => a == b
  | Yaml.strV a, Yaml.strV b => a == b
  | Yaml.arr xs, Yaml.arr ys => yamlListBeq xs ys
  | Yaml.map xs, Yaml.map ys => yamlEntriesBeq xs ys
  | _, _ => false

def yamlListBeq : List Yaml → List Yaml → Bool
  | [], [] => true
  | x :: xs, y :: ys => yamlBeq x y && yamlListBeq xs ys
  | _, _ => false

def yamlEntriesBeq : List (Yaml × Yaml) → List (Yaml × Yaml) → Bool
  | [], [] => true
  | e :: xs, f :: ys => yamlBeq e.1 f.1 && yamlBeq e.2 f.2 && yamlEntriesBeq xs ys
  | _, _ => false

end

instance : BEq Yaml := ⟨yamlBeq⟩

/-- Python `dict.get(k)` on the entry list (keys are unique, so first match
is the dict lookup). -/
def lookupY (entries : List (Yaml × Yaml)) (k : Yaml) : Option Yaml :=
  (entries.find? (fun e => e.1 == k)).map (fun e => e.2)

/-- Python `field in data` for a string field. -/
def hasKey (entries : List (Yaml × Yaml)) (field : String) : Bool :=
  entries.any (fun e => e.1 == Yaml.strV field)

/-- promptctl.lint.checker._check_missing_field. -/
def check_missing_field (entries : List (Yaml × Yaml)) (field rule_id : String)
    (path : String) : List LintViolation :=
  if hasKey entries field then []
  else
    match get_rule rule_id with
    | some r =>
      [⟨rule_id, path, 0, 0, "Missing \x27" ++ field ++ "\x27 field.", "", r.severity⟩]
    | none => []

/-- Python `str(item.get("content", ""))` / plain string items inside the
list-valued text fields of `_check_unused_variables`; `pyStr` stands for
Python `str()` on parsed YAML values. -/
def itemText (pyStr : Yaml → String) (item : Yaml) : String :=
  match item with
  | Yaml.map m => pyStr ((lookupY m (Yaml.strV ("content"))).getD (Yaml.strV ("")))
  | Yaml.strV s => s
  | _ => ""

/-- The text contributed by one of the keys "prompt", "system", "template",
"messages" to `text_fields` in `_check_unused_variables`. -/
def fieldText (pyStr : Yaml → String) (entries : List (Yaml × Yaml)) (key : String) :
    String :=
  match lookupY entries (Yaml.strV key) with
  | some (Yaml.strV s) => s
  | some (Yaml.arr items) => String.join (items.map (itemText pyStr))
  | _ => ""

/-- Python substring membership `needle in hay`. -/
def containsSub (needle : List Char) : List Char → Bool
  | [] => needle.isEmpty
  | c :: rest => needle.isPrefixOf (c :: rest) || containsSub needle rest

/-- promptctl.lint.checker._check_unused_variables (L005): flag variables not
referenced as either of the two brace patterns in the concatenated text. -/
def check_unused_variables (pyStr : Yaml → String) (entries : List (Yaml × Yaml))
    (path : String) : List LintViolation :=
  match (lookupY entries (Yaml.strV ("variables"))).getD (Yaml.map []) with
  | Yaml.map ventries =>
    let text_fields :=
      fieldText pyStr entries ("prompt") ++ fieldText pyStr entries ("system") ++
        fieldText pyStr entries ("template") ++ fieldText pyStr entries ("messages")
    ventries.filterMap (fun e =>
      let var_name := pyStr e.1
      if ¬ containsSub (("\x7b\x7b" ++ var_name ++ "\x7d\x7d").toList) text_fields.toList ∧
          ¬ containsSub (("\x7b" ++ var_name ++ "\x7d").toList) text_fields.toList then
        some ⟨"L005", path, 0, 0,
          "Variable \x27" ++ var_name ++ "\x27 defined but not used in prompt.", "",
          sevOf (get_rule ("L005")) LintSeverity.WARNING⟩
      else none)
  | _ => []

/-- Python `re.match(r"^[a-z][a-z0-9_-]*$", name)`, including the CPython
quirk that `$` also matches just before one trailing newline. -/
def namingOk (l : List Char) : Bool :=
  let core :=
    match l.getLast? with
    | some c => if c = '\n' then l.dropLast else l
    | none => l
  match core with
  | [] => false
  | c :: rest =>
    c.isLower && rest.all (fun d => d.isLower || d.isDigit || d = '_' || d = '-')

/-- promptctl.lint.checker._check_naming_convention (L007): non-string names
are silently exempt. -/
def check_naming_convention (entries : List (Yaml × Yaml)) (path : String) :
    List LintViolation :=
  match lookupY entries (Yaml.strV ("name")) with
  | some (Yaml.strV s) =>
    if namingOk s.toList then []
    else
      [⟨"L007", path, 0, 0,
        "Name \x27" ++ s ++ "\x27 should be lowercase with hyphens/underscores.",
        "Use lowercase letters, digits, hyphens, or underscores.",
        sevOf (get_rule ("L007")) LintSeverity.INFO⟩]
  | _ => []

/-- promptctl.lint.checker.MAX_NESTING_DEPTH. -/
def MAX_NESTING_DEPTH : Nat := 6

mutual

/-- promptctl.lint.checker._measure_depth: dict and list levels count one
each (an empty container still counts), scalars contribute nothing.  Python
takes `max(...)` over a non-empty generator, modelled by `foldr max 0`. -/
def measureDepth : Yaml → Nat → Nat
  | Yaml.map [], current => current + 1
  | Yaml.map (e :: es), current => (depthsOfEntries (e :: es) (current + 1)).foldr max 0
  | Yaml.arr [], current => current + 1
  | Yaml.arr (x :: xs), current => (depthsOfItems (x :: xs) (current + 1)).foldr max 0
  | _, current => current

/-- The generator `_measure_depth(v, current + 1) for v in obj.values()`. -/
def depthsOfEntries : List (Yaml × Yaml) → Nat → List Nat
  | [], _ => []
  | e :: es, d => measureDepth e.2 d :: depthsOfEntries es d

/-- The generator `_measure_depth(item, current + 1) for item in obj`. -/
def depthsOfItems : List Yaml → Nat → List Nat
  | [], _ => []
  | x :: xs, d => measureDepth x d :: depthsOfItems xs d

end

/-- promptctl.lint.checker._check_deep_nesting (L008). -/
def check_deep_nesting (data : Yaml) (path : String) : List LintViolation :=
  let depth := measureDepth data 0
  if MAX_NESTING_DEPTH < depth then
    [⟨"L008", path, 0, 0,
      "Nesting depth " ++ toString depth ++ " exceeds maximum of " ++
        toString MAX_NESTING_DEPTH ++ ".",
      "Consider flattening the structure.", sevOf (get_rule ("L008")) LintSeverity.WARNING⟩]
  else []

/-- The violation appended for a duplicate key (L004) by
`_load_yaml_with_duplicates`. -/
def dupViolation (path k : String) : LintViolation :=
  ⟨"L004", path, 0, 0, "Duplicate key: \x27" ++ k ++ "\x27.", "",
    sevOf (get_rule ("L004")) LintSeverity.ERROR⟩

/-- The violation appended on a yaml.YAMLError (L001). -/
def l001Violation (path : String) : LintViolation :=
  ⟨"L001", path, 0, 0, "Invalid YAML syntax.", "",
    sevOf (get_rule ("L001")) LintSeverity.ERROR⟩

/-- Python `'s' if n > 1 else ''`. -/
def pluralS (n : Nat) : String := if 1 < n then "s" else ""

/-- promptctl.lint.checker._build_summary.  Note: the info clause in the code
is `f"{infos} info"` with no plural suffix. -/
def build_summary (violations : List LintViolation) : String :=
  if violations.isEmpty then "No issues found."
  else
    let errors := violations.countP (fun v => v.severity == LintSeverity.ERROR)
    let warnings := violations.countP (fun v => v.severity == LintSeverity.WARNING)
    let infos := violations.countP (fun v => v.severity == LintSeverity.INFO)
    let parts :=
      (if errors ≠ 0 then [toString errors ++ " error" ++ pluralS errors] else []) ++
        (if warnings ≠ 0 then [toString warnings ++ " warning" ++ pluralS warnings] else []) ++
        (if infos ≠ 0 then [toString infos ++ " info"] else [])
    String.intercalate (", ") parts ++ "."

/-- Modelled from the spec wording of C4: a comma-separated clause per
severity present, in order error, warning, info, EACH clause pluralized when
its count exceeds one, terminated with a period ("No issues found." when
empty).  Differs from `build_summary` only in pluralizing the info clause. -/
def specSummary (violations : List LintViolation) : String :=
  if violations.isEmpty then "No issues found."
  else
    let errors := violations.countP (fun v => v.severity == LintSeverity.ERROR)
    let warnings := violations.countP (fun v => v.severity == LintSeverity.WARNING)
    let infos := violations.countP (fun v => v.severity == LintSeverity.INFO)
    let parts :=
      (if errors ≠ 0 then [toString errors ++ " error" ++ pluralS errors] else []) ++
        (if warnings ≠ 0 then [toString warnings ++ " warning" ++ pluralS warnings] else []) ++
        (if infos ≠ 0 then [toString infos ++ " info" ++ pluralS infos] else [])
    String.intercalate (", ") parts ++ "."

/-- Outcome of `_load_yaml_with_duplicates`: either a yaml.YAMLError, or the
parsed document together with the duplicate keys recorded by the loader hook
(anywhere in the document, not only at top level). -/
inductive ParseOutcome where
  | failed : ParseOutcome
  | parsed : List String → Yaml → ParseOutcome

/-- The violation list accumulated by `check_file` on the successful-parse,
top-level-mapping path, in source order: L004 duplicates recorded during
parsing, then L002, L003, L005, L006, L007, L008. -/
def parsedViolations (pyStr : Yaml → String) (patterns : List (List Char → Bool))
    (dupes : List String) (entries : List (Yaml × Yaml)) (content : List Char)
    (path : String) : List LintViolation :=
  dupes.map (dupViolation path) ++
    check_missing_field entries ("name") ("L002") path ++
    check_missing_field entries ("version") ("L003") path ++
    check_unused_variables pyStr entries path ++
    check_hardcoded_secrets patterns content path ++
    check_naming_convention entries path ++
    check_deep_nesting (Yaml.map entries) path

/-- promptctl.lint.checker.check_file after the I/O preamble: the file
content has been read and the parse outcome is given (the YAML parser is
external).  On a parse failure the report short-circuits with the fixed
summary `"1 error (invalid YAML)"`; when the top-level value is not a dict
the checks are skipped but duplicate-key violations remain. -/
def check_file (pyStr : Yaml → String) (patterns : List (List Char → Bool))
    (outcome : ParseOutcome) (content : List Char) (path : String) : LintReport :=
  match outcome with
  | ParseOutcome.failed => ⟨[l001Violation path], "1 error (invalid YAML)", path⟩
  | ParseOutcome.parsed dupes data =>
    match data with
    | Yaml.map entries =>
      let vs := parsedViolations pyStr patterns dupes entries content path
      ⟨vs, build_summary vs, path⟩
    | _ =>
      let violations := dupes.map (dupViolation path)
      ⟨violations, build_summary violations, path⟩

theorem countP_info_zero (l : List LintViolation)
    (h : ∀ v ∈ l, v.severity ≠ LintSeverity.INFO) :
    l.countP (fun v => v.severity == LintSeverity.INFO) = 0 := by
  rw [List.countP_eq_zero]
  intro v hv
  simpa using h v hv

/-- Among the eight built-in rules, only L007 carries INFO severity. -/
theorem get_rule_sev_not_info (rule_id : String) (r : LintRule)
    (heq : get_rule rule_id = some r) (hid : rule_id ≠ "L007") :
    r.severity ≠ LintSeverity.INFO := by
  unfold get_rule at heq
  have hmem : r ∈ RULES := List.mem_of_find?_eq_some heq
  have hpred := List.find?_some heq
  have hrid : r.id = rule_id := by simpa using hpred
  fin_cases hmem <;> simp_all

theorem missing_field_mem (entries : List (Yaml × Yaml)) (field rule_id path : String)
    (v : LintViolation) (hv : v ∈ check_missing_field entries field rule_id path) :
    ∃ r, get_rule rule_id = some r ∧ v.severity = r.severity := by
  unfold check_missing_field at hv
  split at hv
  · exact absurd hv (by simp)
  · split at hv
    next r heq =>
      rw [List.mem_singleton] at hv
      exact ⟨r, heq, by rw [hv]⟩
    next heq => exact absurd hv (by simp)

theorem unused_sev (pyStr : Yaml → String) (entries : List (Yaml × Yaml)) (path : String) :
    ∀ v ∈ check_unused_variables pyStr entries path,
      v.severity = LintSeverity.WARNING := by
  intro v hv
  unfold check_unused_variables at hv
  split at hv
  · rw [List.mem_filterMap] at hv
    obtain ⟨e, _, hfe⟩ := hv
    simp only [] at hfe
    split at hfe
    · rw [← Option.some.inj hfe]
      rfl
    · exact Option.noConfusion hfe
  · exact absurd hv (by simp)

theorem naming_len_le (entries : List (Yaml × Yaml)) (path : String) :
    (check_naming_convention entries path).length ≤ 1 := by
  unfold check_naming_convention
  split
  · split <;> simp
  · simp

theorem nesting_sev (data : Yaml) (path : String) :
    ∀ v ∈ check_deep_nesting data path, v.severity = LintSeverity.WARNING := by
  intro v hv
  unfold check_deep_nesting at hv
  simp only [] at hv
  split at hv
  · rw [List.mem_singleton] at hv
    rw [hv]
    rfl
  · exact absurd hv (by simp)

/-- Reports assembled on the successful-parse mapping path never contain more
than one INFO violation: L007 is the only INFO-severity rule and fires at
most once. -/
theorem parsedViolations_info_le (pyStr : Yaml → String)
    (patterns : List (List Char → Bool)) (dupes : List String)
    (entries : List (Yaml × Yaml)) (content : List Char) (path : String) :
    (parsedViolations pyStr patterns dupes entries content path).countP
      (fun v => v.severity == LintSeverity.INFO) ≤ 1 := by
  unfold parsedViolations
  rw [List.countP_append, List.countP_append, List.countP_append, List.countP_append,
    List.countP_append, List.countP_append]
  have h1 : (dupes.map (dupViolation path)).countP
      (fun v => v.severity == LintSeverity.INFO) = 0 := by
    refine countP_info_zero _ ?_
    intro v hv
    obtain ⟨k, _, rfl⟩ := List.mem_map.mp hv
    exact fun hcon => LintSeverity.noConfusion hcon
  have h2 : (check_missing_field entries ("name") ("L002") path).countP
      (fun v => v.severity == LintSeverity.INFO) = 0 := by
    refine countP_info_zero _ ?_
    intro v hv
    obtain ⟨r, heq, hsev⟩ := missing_field_mem entries ("name") ("L002") path v hv
    rw [hsev]
    exact get_rule_sev_not_info ("L002") r heq (by decide)
  have h3 : (check_missing_field entries ("version") ("L003") path).countP
      (fun v => v.severity == LintSeverity.INFO) = 0 := by
    refine countP_info_zero _ ?_
    intro v hv
    obtain ⟨r, heq, hsev⟩ := missing_field_mem entries ("version") ("L003") path v hv
    rw [hsev]
    exact get_rule_sev_not_info ("L003") r heq (by decide)
  have h4 : (check_unused_variables pyStr entries path).countP
      (fun v => v.severity == LintSeverity.INFO) = 0 := by
    refine countP_info_zero _ ?_
    intro v hv
    rw [unused_sev pyStr entries path v hv]
    exact fun hcon => LintSeverity.noConfusion hcon
  have h5 : (check_hardcoded_secrets patterns content path).countP
      (fun v => v.severity == LintSeverity.INFO) = 0 := by
    refine countP_info_zero _ ?_
    intro v hv
    obtain ⟨j, hj, _, rfl⟩ := (mem_check_secrets patterns content path v).mp hv
    exact fun hcon => LintSeverity.noConfusion hcon
  have h6 : (check_naming_convention entries path).countP
      (fun v => v.severity == LintSeverity.INFO) ≤ 1 :=
    le_trans (List.countP_le_length _) (naming_len_le entries path)
  have h7 : (check_deep_nesting (Yaml.map entries) path).countP
      (fun v => v.severity == LintSeverity.INFO) = 0 := by
    refine countP_info_zero _ ?_
    intro v hv
    rw [nesting_sev (Yaml.map entries) path v hv]
    exact fun hcon => LintSeverity.noConfusion hcon
  omega

/-- The code summary agrees with the spec-worded summary whenever at most one
INFO violation is present (the spec pluralizes the info clause; the code never
does, but the difference is invisible for counts of zero or one). -/
theorem build_eq_spec (vs : List LintViolation)
    (hinfo : vs.countP (fun v => v.severity == LintSeverity.INFO) ≤ 1) :
    build_summary vs = specSummary vs := by
  unfold build_summary specSummary
  by_cases he : vs.isEmpty = true
  · rw [if_pos he, if_pos he]
  · rw [if_neg he, if_neg he]
    simp only []
    have hp : pluralS (vs.countP (fun v => v.severity == LintSeverity.INFO)) = "" := by
      unfold pluralS
      rw [if_neg (by omega)]
    rw [hp]
    rw [String.append_empty]

/-- C4 counterexample: the invalid-YAML early return of `check_file` produces
the fixed summary `"1 error (invalid YAML)"`, not the severity-clause format
the claim states for every report (which would give `"1 error."` for its own
violation list). -/
theorem claim_C4_counterexample :
    (check_file (fun _ => "") [] ParseOutcome.failed [] ("f.yaml")).summary =
        "1 error (invalid YAML)" ∧
      specSummary ((check_file (fun _ => "") [] ParseOutcome.failed [] ("f.yaml")).violations) =
        "1 error." ∧
      (check_file (fun _ => "") [] ParseOutcome.failed [] ("f.yaml")).summary ≠
        specSummary
          ((check_file (fun _ => "") [] ParseOutcome.failed [] ("f.yaml")).violations) := by
  refine ⟨rfl, by decide, by decide⟩

/-- C4 (amended): for every report produced by `check_file` from a successful
parse, the summary is exactly the spec format — "No issues found." when the
violation list is empty, else a comma-separated clause per severity present in
order error, warning, info, each clause pluralized when its count exceeds one,
terminated with a period (the code never pluralizes the info clause, but such
reports never carry more than one INFO violation, so the formats agree); the
invalid-YAML early return instead carries the fixed summary
`"1 error (invalid YAML)"`. -/
theorem claim_C4 (pyStr : Yaml → String) (patterns : List (List Char → Bool))
    (dupes : List String) (data : Yaml) (content : List Char) (path : String) :
    (check_file pyStr patterns (ParseOutcome.parsed dupes data) content path).summary =
        specSummary
          ((check_file pyStr patterns (ParseOutcome.parsed dupes data) content path).violations) ∧
      (check_file pyStr patterns ParseOutcome.failed content path).summary =
        "1 error (invalid YAML)" := by
  refine ⟨?_, rfl⟩
  have hz : (dupes.map (dupViolation path)).countP
      (fun v => v.severity == LintSeverity.INFO) = 0 := by
    refine countP_info_zero _ ?_
    intro v hv
    obtain ⟨k, _, rfl⟩ := List.mem_map.mp hv
    exact fun hcon => LintSeverity.noConfusion hcon
  cases data with
  | map entries =>
    exact build_eq_spec _ (parsedViolations_info_le pyStr patterns dupes entries content path)
  | nullV => exact build_eq_spec _ (hz.trans_le (Nat.zero_le 1))
  | boolV b => exact build_eq_spec _ (hz.trans_le (Nat.zero_le 1))
  | intV n => exact build_eq_spec _ (hz.trans_le (Nat.zero_le 1))
  | strV s => exact build_eq_spec _ (hz.trans_le (Nat.zero_le 1))
  | arr items => exact build_eq_spec _ (hz.trans_le (Nat.zero_le 1))

/-- C5 counterexample: a document whose top level is a sequence but which
contains a mapping with a duplicated key (e.g. `- {a: 1, a: 2}`) records an
L004 violation during parsing, so the non-mapping early return does not have
zero violations. -/
theorem claim_C5_counterexample :
    ((check_file (fun _ => "") [] (ParseOutcome.parsed ["a"] (Yaml.arr []))
        [] ("list.yaml")).violations).length = 1 := by
  decide

/-- C5 (amended): when the content parses but the top-level value is not a
mapping, `check_file` returns without raising and its violations are exactly
the duplicate-key (L004) violations recorded while parsing — zero violations
when no duplicate keys were detected. -/
theorem claim_C5 (pyStr : Yaml → String) (patterns : List (List Char → Bool))
    (dupes : List String) (data : Yaml) (content : List Char) (path : String)
    (hnm : ∀ entries, data ≠ Yaml.map entries) :
    (check_file pyStr patterns (ParseOutcome.parsed dupes data) content path).violations =
        dupes.map (dupViolation path) ∧
      (dupes = [] →
        (check_file pyStr patterns (ParseOutcome.parsed dupes data) content path).violations =
          []) := by
  have h1 : (check_file pyStr patterns (ParseOutcome.parsed dupes data) content path).violations =
      dupes.map (dupViolation path) := by
    cases data with
    | map entries => exact absurd rfl (hnm entries)
    | nullV => rfl
    | boolV b => rfl
    | intV n => rfl
    | strV s => rfl
    | arr items => rfl
  exact ⟨h1, fun hd => by rw [h1, hd]; rfl⟩

theorem claim_C5_witness :
    (check_file (fun _ => "") [] (ParseOutcome.parsed [] (Yaml.arr []))
      [] ("list.yaml")).violations = [] :=
  (claim_C5 (fun _ => "") [] [] (Yaml.arr []) [] ("list.yaml")
    (fun _ h => Yaml.noConfusion h)).2 rfl

/-- Result of one hosted-API generation call (promptctl.client.send_message):
response text plus token usage.  The API is modelled as an oracle indexed by
call order: `map_reduce_summarize` issues one call per chunk in order, then
one reduce call. -/
structure SendResult where
  response : String
  input_tokens : Nat
  output_tokens : Nat

/-- promptctl.models.DocSummary (cost as exact rational). -/
structure DocSummary where
  executive_summary : String
  sections : List String
  word_count : Nat
  model : String
  input_tokens : Nat
  output_tokens : Nat
  cost_usd : ℚ
  chunks_processed : Nat

/-- Outcome of the map-phase JSON extraction
`data = json.loads(result.response.strip()); data.get("section_summary", result.response[:500])`
for one reply (promptctl.doc.chunker, map loop).  json.loads and dict.get are
external, so the outcome is an oracle value per response text:
`decodeError` - json.loads raises json.JSONDecodeError, which the code
catches, falling back to the first 500 characters of the raw reply;
`attrError` - json.loads succeeds but yields a non-object (a reply such as
"42", "[]" or "null"), so `data.get` raises an AttributeError that nothing
catches: the whole summarization aborts and no DocSummary is produced;
`keyMissing` - an object without the key, so `.get` returns its supplied
default, again the first 500 characters;
`value s` - an object carrying the key, extracted (stringified) as `s`. -/
inductive JsonGet where
  | decodeError : JsonGet
  | attrError : JsonGet
  | keyMissing : JsonGet
  | value : String → JsonGet

/-- One map-phase extraction: `some` is the string appended to
`chunk_summaries`, `none` the uncaught AttributeError. -/
def extractSection (jm : String → JsonGet) (r : SendResult) : Option String :=
  match jm r.response with
  | JsonGet.decodeError => some (r.response.take 500)
  | JsonGet.attrError => none
  | JsonGet.keyMissing => some (r.response.take 500)
  | JsonGet.value s => some s

/-- The map phase of `map_reduce_summarize`: one generation call per chunk
(call index `i` onward), accumulating input tokens, output tokens, and the
chunk summaries in order.  `none` models an extraction raising: the exception
propagates and the caller returns nothing (the token counts already
accumulated at that point are unobservable). -/
def mapPhase (send : Nat → SendResult) (jm : String → JsonGet) :
    Nat → List (List Char) → Option (Nat × Nat × List String)
  | _, [] => some (0, 0, [])
  | i, _chunk :: rest =>
    let r := send i
    match extractSection jm r with
    | none => none
    | some s =>
      match mapPhase send jm (i + 1) rest with
      | none => none
      | some acc =>
        some (r.input_tokens + acc.1, r.output_tokens + acc.2.1, s :: acc.2.2)

/-- `f"Section {i + 1}:\n{s}"`. -/
def sectionLabel (i : Nat) (s : String) : String :=
  "Section " ++ toString (i + 1) ++ ":\n" ++ s

/-- The combined reduce prompt body: section summaries labelled and joined by
the divider. -/
def joinSections (ss : List String) : String :=
  String.intercalate ("\n\n---\n\n") (ss.enum.map (fun p => sectionLabel p.1 p.2))

/-- Outcome of the reduce-phase parse: on json.JSONDecodeError the code sets
`data = ` to the empty dict, so both `.get` calls fall back to their defaults
(`decodeError`); when json.loads yields a non-object, the two `.get` calls in
the returned DocSummary sit outside any try and raise an uncaught
AttributeError (`attrError`); otherwise `dict exec secs` carries the per-key
`.get` results for "executive_summary" and "sections" (`none` = key absent,
so the default is used). -/
inductive ReduceParse where
  | decodeError : ReduceParse
  | attrError : ReduceParse
  | dict : Option String → Option (List String) → ReduceParse

/-- promptctl.doc.chunker.map_reduce_summarize: split with the default chunk
parameters, summarize each chunk (map), then synthesize (reduce, one more
call), aggregating input/output token counts over all calls and computing the
cost once from the grand totals.  A reply that parses to a non-object JSON
value makes the source raise an uncaught AttributeError in either phase,
modelled as `none`.  The combined prompt is built exactly as in the source
but the call oracle, being order-indexed, does not inspect it. -/
def map_reduce_summarize (send : Nat → SendResult) (jm : String → JsonGet)
    (jr : String → ReduceParse) (text : List Char) (model : String)
    (word_count : Nat) : Option DocSummary :=
  match chunk_text text CHUNK_CHAR_SIZE OVERLAP_CHARS with
  | none => none
  | some chunks =>
    match mapPhase send jm 0 chunks with
    | none => none
    | some m =>
      let _combined := joinSections m.2.2
      let reduce_result := send chunks.length
      let total_input := m.1 + reduce_result.input_tokens
      let total_output := m.2.1 + reduce_result.output_tokens
      let total_cost := calculate_cost model total_input total_output
      match jr reduce_result.response with
      | ReduceParse.decodeError =>
        some ⟨reduce_result.response.take 500, m.2.2, word_count, model,
          total_input, total_output, total_cost, chunks.length⟩
      | ReduceParse.attrError => none
      | ReduceParse.dict exec secs =>
        some ⟨exec.getD (reduce_result.response.take 500), secs.getD m.2.2,
          word_count, model, total_input, total_output, total_cost, chunks.length⟩

theorem extractSection_isSome (jm : String → JsonGet) (r : SendResult)
    (h : jm r.response ≠ JsonGet.attrError) :
    ∃ s, extractSection jm r = some s := by
  unfold extractSection
  cases hj : jm r.response with
  | decodeError => exact ⟨r.response.take 500, rfl⟩
  | attrError => exact absurd hj h
  | keyMissing => exact ⟨r.response.take 500, rfl⟩
  | value s => exact ⟨s, rfl⟩

/-- When no map reply parses to a non-object, the map phase returns, and its
totals are the sums of the per-call token counts. -/
theorem mapPhase_spec (send : Nat → SendResult) (jm : String → JsonGet)
    (hm : ∀ s, jm s ≠ JsonGet.attrError) :
    ∀ (chunks : List (List Char)) (i : Nat),
      ∃ m, mapPhase send jm i chunks = some m ∧
        m.1 = (∑ j ∈ Finset.range chunks.length, (send (i + j)).input_tokens) ∧
        m.2.1 = ∑ j ∈ Finset.range chunks.length, (send (i + j)).output_tokens := by
  intro chunks
  induction chunks with
  | nil => intro i; exact ⟨(0, 0, []), rfl, by simp, by simp⟩
  | cons c rest ih =>
    intro i
    obtain ⟨s, hs⟩ := extractSection_isSome jm (send i) (hm (send i).response)
    obtain ⟨acc, hacc, h1, h2⟩ := ih (i + 1)
    refine ⟨((send i).input_tokens + acc.1, (send i).output_tokens + acc.2.1, s :: acc.2.2),
      ?_, ?_, ?_⟩
    · rw [mapPhase]
      simp only [hs, hacc]
    · show (send i).input_tokens + acc.1 = _
      rw [h1, List.length_cons, Finset.sum_range_succ',
        Nat.add_comm ((send i).input_tokens) _]
      congr 1
      exact Finset.sum_congr rfl (fun j _ => by rw [Nat.add_assoc, Nat.add_comm 1 j])
    · show (send i).output_tokens + acc.2.1 = _
      rw [h2, List.length_cons, Finset.sum_range_succ',
        Nat.add_comm ((send i).output_tokens) _]
      congr 1
      exact Finset.sum_congr rfl (fun j _ => by rw [Nat.add_assoc, Nat.add_comm 1 j])

theorem chunkLoop_length_ge (text : List Char) (size overlap : Nat) :
    ∀ (fuel : Nat) (start : Int) (acc cs : List (List Char)),
      chunkLoop text size overlap fuel start acc = some cs →
      acc.length ≤ cs.length := by
  intro fuel
  induction fuel with
  | zero => intro start acc cs h; exact Option.noConfusion h
  | succ n ih =>
    intro start acc cs h
    rw [chunkLoop_succ] at h
    by_cases hlt : start < (text.length : Int)
    · rw [if_pos hlt] at h
      simp only at h
      by_cases hbr : (text.length : Int) ≤ start + (size : Int) - (overlap : Int) + (overlap : Int)
      · rw [if_pos hbr] at h
        cases h
        simp
      · rw [if_neg hbr] at h
        have := ih _ _ _ h
        rw [List.length_append] at this
        omega
    · rw [if_neg hlt] at h
      cases h
      exact le_rfl

theorem chunk_text_ne_nil (text : List Char) (size overlap : Nat)
    (cs : List (List Char)) (h : chunk_text text size overlap = some cs) :
    1 ≤ cs.length := by
  unfold chunk_text at h
  split at h
  · cases h; simp
  next hle =>
    rw [show text.length + 1 = text.length + 1 from rfl, chunkLoop_succ] at h
    rw [if_pos (by omega : (0 : Int) < (text.length : Int))] at h
    simp only at h
    by_cases hbr : (text.length : Int) ≤ 0 + (size : Int) - (overlap : Int) + (overlap : Int)
    · rw [if_pos hbr] at h
      cases h
      simp
    · rw [if_neg hbr] at h
      have := chunkLoop_length_ge text size overlap _ _ _ _ h
      simpa using this

/-- A text of 400001 characters, one more than the default chunk size. -/
def exText : List Char := List.replicate 400001 'a'

/-- Call oracle for the spec's worked example: the two map calls report
(100, 50) tokens each and the reduce call (80, 60). -/
def exSend : Nat → SendResult :=
  fun i => if i < 2 then ⟨"", 100, 50⟩ else ⟨"", 80, 60⟩

/-- Under the default parameters the 400001-character text splits into exactly
two chunks: `text[0:400000]` and `text[398000:798000]`. -/
theorem chunk_text_exText :
    chunk_text exText 400000 2000 =
      some [pySlice exText 0 (0 + (400000 : Nat)),
        pySlice exText (0 + (400000 : Nat) - (2000 : Nat))
          (0 + (400000 : Nat) - (2000 : Nat) + (400000 : Nat))] := by
  have hlen : exText.length = 400001 := List.length_replicate _ _
  unfold chunk_text
  rw [hlen]
  rw [if_neg (by norm_num)]
  rw [chunkLoop_succ, hlen]
  rw [if_pos (by norm_num)]
  simp only []
  rw [if_neg (by norm_num)]
  rw [show (400001 : Nat) = 400000 + 1 from rfl, chunkLoop_succ, hlen]
  rw [if_pos (by norm_num)]
  simp only []
  rw [if_pos (by norm_num)]
  rfl

/-- C6 counterexample: a map reply that is valid JSON but not an object -
the oracle value `JsonGet.attrError`, reached e.g. by the reply text "42" -
makes `data.get("section_summary", ...)` raise an AttributeError that nothing
catches, so the program raises and returns no DocSummary at all; the
embedding returns `none`. -/
theorem claim_C6_counterexample :
    map_reduce_summarize (fun _ => ⟨"42", 100, 50⟩) (fun _ => JsonGet.attrError)
      (fun _ => ReduceParse.decodeError) ("hi".toList) ("m") 7 = none := rfl

/-- C6 (amended): whenever no generation reply decodes to a non-object JSON
value (each map extraction and the reduce parse either yields a value, fails
to decode and falls back, or misses the key), `map_reduce_summarize` returns
a DocSummary whose input_tokens is the sum of the input token counts over all
map calls plus the reduce call, whose output_tokens is the corresponding
output sum, whose chunks_processed equals the number of chunks produced by
the chunker (always at least 1), and whose cost is computed once from the
grand totals; a reply parsing to a non-object instead raises an uncaught
AttributeError and nothing is returned. -/
theorem claim_C6 (send : Nat → SendResult) (jm : String → JsonGet)
    (jr : String → ReduceParse) (text : List Char) (model : String)
    (word_count : Nat) (hm : ∀ s, jm s ≠ JsonGet.attrError)
    (hr : ∀ s, jr s ≠ ReduceParse.attrError) :
    ∃ chunks s,
      chunk_text text CHUNK_CHAR_SIZE OVERLAP_CHARS = some chunks ∧
        map_reduce_summarize send jm jr text model word_count = some s ∧
        s.input_tokens =
          (∑ j ∈ Finset.range chunks.length, (send j).input_tokens) +
            (send chunks.length).input_tokens ∧
        s.output_tokens =
          (∑ j ∈ Finset.range chunks.length, (send j).output_tokens) +
            (send chunks.length).output_tokens ∧
        s.chunks_processed = chunks.length ∧
        1 ≤ s.chunks_processed ∧
        s.cost_usd = calculate_cost model s.input_tokens s.output_tokens := by
  have hsome : (chunk_text text CHUNK_CHAR_SIZE OVERLAP_CHARS).isSome = true := by
    unfold chunk_text
    by_cases hle : text.length ≤ CHUNK_CHAR_SIZE
    · rw [if_pos hle]; rfl
    · rw [if_neg hle]
      have h := chunkLoop_isSome text CHUNK_CHAR_SIZE OVERLAP_CHARS (by decide)
        text.length 0 [] (by omega)
      simpa using h
  obtain ⟨chunks, hchunks⟩ := Option.isSome_iff_exists.mp hsome
  obtain ⟨m, hmap, ht1, ht2⟩ := mapPhase_spec send jm hm chunks 0
  have hone : 1 ≤ chunks.length :=
    chunk_text_ne_nil text CHUNK_CHAR_SIZE OVERLAP_CHARS chunks hchunks
  have hin : m.1 + (send chunks.length).input_tokens =
      (∑ j ∈ Finset.range chunks.length, (send j).input_tokens) +
        (send chunks.length).input_tokens := by
    rw [ht1]
    congr 1
    exact Finset.sum_congr rfl (fun j _ => by rw [Nat.zero_add])
  have hout : m.2.1 + (send chunks.length).output_tokens =
      (∑ j ∈ Finset.range chunks.length, (send j).output_tokens) +
        (send chunks.length).output_tokens := by
    rw [ht2]
    congr 1
    exact Finset.sum_congr rfl (fun j _ => by rw [Nat.zero_add])
  cases hjr : jr (send chunks.length).response with
  | decodeError =>
    refine ⟨chunks, ⟨(send chunks.length).response.take 500, m.2.2, word_count, model,
      m.1 + (send chunks.length).input_tokens,
      m.2.1 + (send chunks.length).output_tokens,
      calculate_cost model (m.1 + (send chunks.length).input_tokens)
        (m.2.1 + (send chunks.length).output_tokens), chunks.length⟩,
      hchunks, ?_, hin, hout, rfl, hone, rfl⟩
    simp only [map_reduce_summarize, hchunks, hmap, hjr]
  | attrError => exact absurd hjr (hr _)
  | dict exec secs =>
    refine ⟨chunks, ⟨exec.getD ((send chunks.length).response.take 500),
      secs.getD m.2.2, word_count, model,
      m.1 + (send chunks.length).input_tokens,
      m.2.1 + (send chunks.length).output_tokens,
      calculate_cost model (m.1 + (send chunks.length).input_tokens)
        (m.2.1 + (send chunks.length).output_tokens), chunks.length⟩,
      hchunks, ?_, hin, hout, rfl, hone, rfl⟩
    simp only [map_reduce_summarize, hchunks, hmap, hjr]

theorem claim_C6_witness :
    (map_reduce_summarize exSend (fun _ => JsonGet.decodeError)
        (fun _ => ReduceParse.decodeError) exText ("m") 7).isSome = true ∧
      (map_reduce_summarize exSend (fun _ => JsonGet.decodeError)
          (fun _ => ReduceParse.decodeError) exText ("m") 7).map
        DocSummary.input_tokens = some 280 ∧
      (map_reduce_summarize exSend (fun _ => JsonGet.decodeError)
          (fun _ => ReduceParse.decodeError) exText ("m") 7).map
        DocSummary.output_tokens = some 160 ∧
      (map_reduce_summarize exSend (fun _ => JsonGet.decodeError)
          (fun _ => ReduceParse.decodeError) exText ("m") 7).map
        DocSummary.chunks_processed = some 2 := by
  obtain ⟨chunks, s, hch, hmr, hin, hout, hcp, _, _⟩ :=
    claim_C6 exSend (fun _ => JsonGet.decodeError) (fun _ => ReduceParse.decodeError)
      exText ("m") 7 (fun _ h => JsonGet.noConfusion h)
      (fun _ h => ReduceParse.noConfusion h)
  have hlen2 : chunks.length = 2 := by
    have heq := Option.some.inj (hch.symm.trans chunk_text_exText)
    rw [heq]
    rfl
  have h280 : s.input_tokens = 280 := by
    rw [hin, hlen2, Finset.sum_range_succ, Finset.sum_range_succ, Finset.sum_range_zero]
    rfl
  have h160 : s.output_tokens = 160 := by
    rw [hout, hlen2, Finset.sum_range_succ, Finset.sum_range_succ, Finset.sum_range_zero]
    rfl
  have h2c : s.chunks_processed = 2 := by rw [hcp, hlen2]
  refine ⟨by rw [hmr]; rfl, ?_, ?_, ?_⟩
  · rw [hmr]
    exact congrArg some h280
  · rw [hmr]
    exact congrArg some h160
  · rw [hmr]
    exact congrArg some h2c
